import Mathlib

/-!
Verification of the dataflow-pro spreadsheet transfer pipeline.

The development shallowly embeds the transfer logic of `src/GAS_code.gs` and
`src/code.gs` (filtering, duplicate detection, header validation, chunked
appends, row deletion, and the orchestrating `executeDataTransfer`), plus the
progress-tracking route of the HTTP layer (`src/unnamed/part_000`) backed by
the simulated Google-Apps-Script service
(`src/server/services/google-apps-script.ts`).

Modelling conventions:
* A spreadsheet cell is a JS value observed through three views: its string
  rendering (`toString()` / date formatting collapsed into `str`), its date
  interpretation (`new Date(cell).getTime()` in milliseconds, `none` for an
  invalid date / NaN), and its JS truthiness.
* A sheet is its `getValues()` grid: a list of rows of cells, element 0 being
  the header row; 1-based sheet row `r` is list index `r - 1`.
* Date-range parameters enter as the already-parsed millisecond timestamps of
  `new Date(fromDate)` / `new Date(toDate)` (midnight of the named day);
  `setHours(23,59,59,999)` adds `86399999` ms.
* Environmental failures of the spreadsheet backend (a `setValues` append
  throwing, the `deleteRows` call throwing) are injected through oracles in
  the world state; sheet/spreadsheet lookup is modelled as already resolved
  (the NotFound throws guard code paths the claims do not touch).
-/

namespace DataflowPro

/-- A JS cell value as observed by the transfer code: string rendering,
date interpretation (`none` = Invalid Date), and truthiness. -/
structure Cell where
  str : String
  date : Option Int
  truthy : Bool
deriving DecidableEq, Repr

/-- The JS value `undefined`, produced by reading past the end of a row:
renders as "undefined", is an invalid date, and is falsy. -/
def undefCell : Cell := ⟨"undefined", none, false⟩

/-- `row[i]` in JS: the cell, or `undefined` when out of range. -/
def cellAt (row : List Cell) (i : Nat) : Cell := row.getD i undefCell

/-- ASCII whitespace recognized by the embedded `trim` (the headers and keys
of this repository only ever carry plain spaces). -/
def isJsWs (c : Char) : Bool := c == ' ' || c == '\t' || c == '\n' || c == '\r'

/-- Drop leading whitespace from a character list. -/
def dropWs : List Char → List Char
  | [] => []
  | c :: cs => if isJsWs c then dropWs cs else c :: cs

/-- JS `s.trim()` (structural implementation, kernel-evaluable). -/
def trimStr (s : String) : String :=
  ((dropWs (dropWs s.toList).reverse).reverse).asString

/-- JS `s.toUpperCase()`. -/
def upStr (s : String) : String := (s.toList.map Char.toUpper).asString

/-- JS `s.toLowerCase()`. -/
def lowStr (s : String) : String := (s.toList.map Char.toLower).asString

/-- JS `String.prototype.startsWith` on character lists. -/
def charsStartWith : List Char → List Char → Bool
  | [], _ => true
  | _ :: _, [] => false
  | p :: ps, c :: cs => p == c && charsStartWith ps cs

/-- JS `String.prototype.includes` on character lists. -/
def charsIncludes (pat : List Char) : List Char → Bool
  | [] => charsStartWith pat []
  | l@(_ :: cs) => charsStartWith pat l || charsIncludes pat cs

/-- JS `s.includes(pat)`. -/
def strIncludes (s pat : String) : Bool := charsIncludes pat.toList s.toList

/-- Decidable equality for `Except` results (not provided by the library). -/
instance {ε α : Type} [DecidableEq ε] [DecidableEq α] :
    DecidableEq (Except ε α) := fun x y =>
  match x, y with
  | .error a, .error b =>
      if h : a = b then isTrue (by rw [h]) else isFalse (fun hh => h (by cases hh; rfl))
  | .ok a, .ok b =>
      if h : a = b then isTrue (by rw [h]) else isFalse (fun hh => h (by cases hh; rfl))
  | .error _, .ok _ => isFalse (fun hh => nomatch hh)
  | .ok _, .error _ => isFalse (fun hh => nomatch hh)

/-- `REQUIRED_HEADERS` from GAS_code.gs / code.gs. -/
def REQUIRED_HEADERS : List String :=
  ["DATE", "ORDER ID", "TRACKING ID", "CUSTOMER NAME", "PHONE", "CITY", "COD",
   "REMARKS ON STATUS", "AGENT NAME", "STATUS", "EXPORT", "DELIVERY TYPE",
   "RETURN REASON", "REMARKS IF RETURNED"]

/-- `CHUNK_SIZE` from GAS_code.gs / code.gs. -/
def CHUNK_SIZE : Nat := 100

/-- End-of-day adjustment: `setHours(23, 59, 59, 999)` applied to a midnight
timestamp adds 23h59m59.999s in milliseconds. -/
def END_OF_DAY_MS : Int := 86399999

/-- `header.toString().toLowerCase().includes(pat)`: the substring heuristic
used to locate the date / status columns. -/
def headerMatches (pat : String) (h : Cell) : Bool :=
  strIncludes (lowStr h.str) pat

/-- Result shape of `getFilteredData` (GAS_code.gs lines 240-245). -/
structure FilterResult where
  headers : List Cell
  rows : List (List Cell)
  rowCount : Nat
  sourceRowNumbers : List Nat
deriving DecidableEq, Repr

/-- A header cell for a constant string header (used by the empty-sheet
early return, which answers with `REQUIRED_HEADERS`). -/
def headerCell (s : String) : Cell := ⟨s, none, s ≠ ""⟩

/-- `new Date(cell) >= fromDateObj && new Date(cell) <= toDateObj` — JS date
comparison; any comparison with an Invalid Date (NaN) is false. -/
def jsDateInRange (c : Cell) (fromMs toMs : Int) : Bool :=
  match c.date with
  | none => false
  | some d => fromMs ≤ d && d ≤ toMs

/-- The row predicate of `getFilteredData` in GAS_code.gs (lines 224-236):
date in `[fromMs, toMs]`, and when a truthy status argument is given and a
status column exists, a case-insensitive match after trimming. -/
def gasRowMatch (dateIdx : Nat) (statusIdx : Option Nat) (fromMs toMs : Int)
    (status : Option String) (row : List Cell) : Bool :=
  let dateMatch := jsDateInRange (cellAt row dateIdx) fromMs toMs
  match status, statusIdx with
  | some s, some si =>
      dateMatch &&
        (lowStr (trimStr (cellAt row si).str) == lowStr s)
  | _, _ => dateMatch

/-- `getFilteredData` from GAS_code.gs (lines 177-250).  The sheet argument is
the `getValues()` grid (row 0 = headers).  `status = none` models an absent or
falsy status argument.  Parameter-presence and sheet-lookup throws are outside
the model; the date-column throw is kept as `Except.error`. -/
def gasGetFilteredData (sheet : List (List Cell)) (fromMs toMs : Int)
    (status : Option String) : Except String FilterResult :=
  if sheet.length < 2 then
    .ok ⟨REQUIRED_HEADERS.map headerCell, [], 0, []⟩
  else
    let headers := sheet.headD []
    let dataRows := sheet.drop 1
    match headers.findIdx? (headerMatches "date") with
    | none => .error "Date column not found. Please ensure your sheet has a DATE column."
    | some dateIdx =>
        let statusIdx := headers.findIdx? (headerMatches "status")
        let filteredRows :=
          dataRows.filter (gasRowMatch dateIdx statusIdx fromMs toMs status)
        .ok ⟨headers, filteredRows, filteredRows.length,
             (List.range filteredRows.length).map (· + 2)⟩

/-- Result shape of `getFilteredData` in code.gs (lines 204-208).  The
`serializedRows` field is the JSON-serialized form (dates and values collapsed
to their string rendering `Cell.str`). -/
structure CodeFilterResult where
  headers : List String
  rows : List (List Cell)
  serializedRows : List (List String)
  rowCount : Nat
deriving DecidableEq, Repr

/-- `getFilteredData` from code.gs (lines 148-213): date-range filtering only
(no status parameter), with the `toDate` bound pushed to end of day by
`setHours(23, 59, 59, 999)`. -/
def codeGetFilteredData (sheet : List (List Cell)) (fromMs toMs : Int) :
    Except String CodeFilterResult :=
  if sheet.length = 0 then
    .ok ⟨[], [], [], 0⟩
  else
    let headers := sheet.headD []
    let dataRows := sheet.drop 1
    match headers.findIdx? (headerMatches "date") with
    | none => .error "Date column not found in the sheet"
    | some dateIdx =>
        let toEnd := toMs + END_OF_DAY_MS
        let filteredRows :=
          dataRows.filter (fun row => jsDateInRange (cellAt row dateIdx) fromMs toEnd)
        .ok ⟨headers.map Cell.str, filteredRows,
             filteredRows.map (fun row => row.map Cell.str),
             filteredRows.length⟩

/-- The identity key read from a candidate row's cell:
`row[col] ? row[col].toString().trim() : ''` (GAS_code.gs line 419). -/
def jsKey (c : Cell) : String := if c.truthy then trimStr c.str else ""

/-- Seeding of the existing-key set (GAS_code.gs lines 409-413): each existing
row's truthy identity cell contributes its trimmed string.  The set is
represented as a list whose membership is what a JS `Set` observes. -/
def seedKeys (col : Nat) (existingData : List (List Cell)) : List String :=
  existingData.foldl
    (fun s row => if (cellAt row col).truthy then trimStr (cellAt row col).str :: s else s)
    []

/-- The walk over candidate rows (GAS_code.gs lines 418-429), carrying the
running index and the mutable key set: a row whose key is nonempty and already
present is pushed to `duplicateRows`; otherwise the index is pushed to
`uniqueRows` and a nonempty key is added to the set. -/
def fdAux (col : Nat) : Nat → List (List Cell) → List String → List Nat × List Nat
  | _, [], _ => ([], [])
  | idx, row :: rest, keys =>
      let k := jsKey (cellAt row col)
      if k ≠ "" && keys.contains k then
        let r := fdAux col (idx + 1) rest keys
        (r.1, idx :: r.2)
      else
        let r := fdAux col (idx + 1) rest (if k ≠ "" then k :: keys else keys)
        (idx :: r.1, r.2)

/-- Result of `findDuplicates`: indices into the candidate rows. -/
structure DupResult where
  uniqueRows : List Nat
  duplicateRows : List Nat
deriving DecidableEq, Repr

/-- `findDuplicates` from GAS_code.gs (lines 394-442).  The identity column is
`REQUIRED_HEADERS.indexOf('ORDER ID')`; the `=== -1` fallback (index equal to
the list length in this embedding) returns every index as unique. -/
def findDuplicates (newData existingData : List (List Cell)) : DupResult :=
  let orderIdColIndex := REQUIRED_HEADERS.indexOf "ORDER ID"
  if orderIdColIndex = REQUIRED_HEADERS.length then
    ⟨List.range newData.length, []⟩
  else
    let r := fdAux orderIdColIndex 0 newData (seedKeys orderIdColIndex existingData)
    ⟨r.1, r.2⟩

/-- Header normalization `h.toString().trim().toUpperCase()` used by both
`validateHeaders` variants. -/
def normH (s : String) : String := upStr (trimStr s)

/-- The header-mismatch report `{expected, missing, extra}`. -/
structure HeaderMismatch where
  expected : List String
  missing : List String
  extra : List String
deriving DecidableEq, Repr

/-- `validateHeaders` from GAS_code.gs (lines 260-304), headers already read
from the two located sheets (cells observed through `toString()`).  `missing`
and `extra` are computed — and returned — in normalized form; the source
headers are normalized but never consulted. -/
def gasValidateHeaders (sourceHeaders destHeaders : List String) :
    Option HeaderMismatch :=
  let _sourceHeadersStr := sourceHeaders.map normH
  let destHeadersStr := destHeaders.map normH
  let requiredHeadersStr := REQUIRED_HEADERS.map normH
  let missing := requiredHeadersStr.filter (fun h => ¬ destHeadersStr.contains h)
  let extra := destHeadersStr.filter (fun h => ¬ requiredHeadersStr.contains h)
  if missing.length > 0 || extra.length > 0 then
    some ⟨REQUIRED_HEADERS, missing, extra⟩
  else
    none

/-- `validateHeaders` from code.gs (lines 269-325).  Note: its `extra` is the
normalized *source* headers that are in the required set but absent from the
destination; results are mapped back to original casing via `indexOf`. -/
def codeValidateHeaders (sourceHeaders destHeaders : List String) :
    Option HeaderMismatch :=
  let normalizedSource := sourceHeaders.map normH
  let normalizedDest := destHeaders.map normH
  let normalizedRequired := REQUIRED_HEADERS.map normH
  let missing := normalizedRequired.filter (fun h => ¬ normalizedDest.contains h)
  let extra := normalizedSource.filter
    (fun h => ¬ normalizedDest.contains h && normalizedRequired.contains h)
  if missing.length > 0 || extra.length > 0 then
    some ⟨REQUIRED_HEADERS,
          missing.map (fun h => REQUIRED_HEADERS.getD (normalizedRequired.indexOf h) "undefined"),
          extra.map (fun h => sourceHeaders.getD (normalizedSource.indexOf h) "undefined")⟩
  else
    none

/-- One row normalized for `setValues`: pad on the right with `empty` up to
`n` cells, then `slice(0, n)` — the result always has exactly `n` cells. -/
def padTrunc (empty : α) (n : Nat) (row : List α) : List α :=
  (row ++ List.replicate (n - row.length) empty).take n

/-- The empty-string cell pushed by the padding loops. -/
def emptyCell : Cell := ⟨"", none, false⟩

/-- `Math.max(headers.length, ...chunk.map(row => row.length))` without the
`headers.length` operand: the maximum row length of the chunk. -/
def maxRowLen (chunk : List (List α)) : Nat :=
  chunk.foldl (fun m r => max m r.length) 0

/-- The chunk normalization of GAS_code.gs `appendDataChunk` (lines 330-339):
every row padded (never truncated below its own length) to
`max(headers.length, longest row of the chunk)`. -/
def gasNormalizeChunk (headers : List Cell) (chunk : List (List Cell)) :
    List (List Cell) :=
  chunk.map (padTrunc emptyCell (max headers.length (maxRowLen chunk)))

/-- A destination sheet as seen by the append operations: its `getValues`
grid (row 0 = headers) and its `getLastColumn()` count. -/
structure SheetW where
  rows : List (List Cell)
  cols : Nat
deriving DecidableEq, Repr

/-- `appendChunk` from code.gs (lines 333-371): rows are padded/truncated to
`sheet.getLastColumn() || chunk[0].length` and written starting at
`getLastRow() + 1`. -/
def codeAppendChunk (dest : SheetW) (chunk : List (List Cell)) :
    Except String SheetW :=
  if chunk.length = 0 then .error "Invalid parameters for append operation"
  else
    let numCols := if dest.cols = 0 then (chunk.headD []).length else dest.cols
    let normalizedChunk := chunk.map (padTrunc emptyCell numCols)
    .ok { dest with rows := dest.rows ++ normalizedChunk }

/-- `appendDataChunk` from GAS_code.gs (lines 313-350): rows are normalized to
`Math.max(headers.length, ...row lengths)` and written starting at
`getLastRow() + 1`.  The destination's column count is never consulted. -/
def gasAppendDataChunk (dest : SheetW) (chunk : List (List Cell))
    (headers : List Cell) : Except String SheetW :=
  if chunk.length = 0 then .error "Invalid parameters for append operation"
  else
    .ok { dest with rows := dest.rows ++ gasNormalizeChunk headers chunk }

/-- `[...rowNums].sort((a, b) => b - a)`: numeric sort, descending. -/
def sortDesc (l : List Nat) : List Nat :=
  (l.insertionSort (· ≤ ·)).reverse

/-- The deletion loop of `deleteRows` (GAS_code.gs lines 374-379): walk the
descending-sorted row numbers; a number within `(1, getLastRow()]` of the
*current* sheet is issued as `sheet.deleteRow(rowNum)` (recorded in the
returned trace) and removes that 1-based row; others are skipped. -/
def delLoop : List Nat → List α → List α × List Nat
  | [], s => (s, [])
  | r :: rest, s =>
      if 1 < r ∧ r ≤ s.length then
        let res := delLoop rest (s.eraseIdx (r - 1))
        (res.1, r :: res.2)
      else
        delLoop rest s

/-- `deleteRows` from GAS_code.gs (lines 358-386) / code.gs (lines 379-407):
returns the final sheet and the trace of issued `deleteRow` calls. -/
def deleteRowsModel (sheet : List α) (rowNums : List Nat) :
    Except String (List α × List Nat) :=
  if rowNums.length = 0 then .error "Invalid parameters for delete operation"
  else .ok (delLoop (sortDesc rowNums) sheet)

/-- Keep the elements of `s` whose 1-based position `p` (counting from `i`)
satisfies `P p`.  Used to state which pre-deletion rows survive. -/
def keepPosAux (P : Nat → Bool) : Nat → List α → List α
  | _, [] => []
  | i, a :: as => if P i then a :: keepPosAux P (i + 1) as else keepPosAux P (i + 1) as

/-- Keep the elements of `s` whose 1-based position satisfies `P`. -/
def keepPos (P : Nat → Bool) (s : List α) : List α := keepPosAux P 1 s

/-- Fuel-driven chunking loop (structural recursion so that it evaluates in
the kernel); each step consumes at least one element, so fuel = input length
never runs out. -/
def chunksFuel (m : Nat) : Nat → List α → List (List α)
  | 0, _ => []
  | _, [] => []
  | fuel + 1, a :: rest => (a :: rest.take m) :: chunksFuel m fuel (rest.drop m)

/-- `chunksOfSucc m l` splits `l` into consecutive chunks of size `m + 1`:
the slices `l.slice(i, i + (m+1))` of the chunk loops. -/
def chunksOfSucc (m : Nat) (l : List α) : List (List α) :=
  chunksFuel m l.length l

/-- Consecutive chunks of size `n` (the executor only uses `n = CHUNK_SIZE`;
`n = 0` never arises and is mapped to no chunks). -/
def chunksOf (n : Nat) (l : List α) : List (List α) :=
  match n with
  | 0 => []
  | m + 1 => chunksOfSucc m l

/-- `mode` of a transfer request; GAS defaults to `'copy'`. -/
inductive Mode
  | copy
  | move
deriving DecidableEq, Repr

/-- The `{success, transferredRows, duplicatesFound, message}` result of
`executeDataTransfer`. -/
structure TransferResult where
  success : Bool
  transferredRows : Nat
  duplicatesFound : Nat
  message : String
deriving DecidableEq, Repr

/-- The environment of one `executeDataTransfer` run: the two sheets and the
environmental failure oracles (`appendFails k` = the `setValues` of the k-th
chunk append throws; `deleteFails` = the `deleteRows` call throws before
mutating the source). -/
structure World where
  source : List (List Cell)
  dest : SheetW
  appendFails : Nat → Bool
  deleteFails : Bool

/-- The request parameters reaching `executeDataTransfer` (dates already
parsed to timestamps). -/
structure Params where
  fromMs : Int
  toMs : Int
  status : Option String
  mode : Mode

/-- The chunk loop of GAS_code.gs `executeDataTransfer` (lines 508-522):
append each chunk in order (its rows normalized as by `appendDataChunk`),
accumulating `transferredCount` and the appended rows; the first failing
append aborts with its chunk index. -/
def transferChunks (fails : Nat → Bool) (headers : List Cell) :
    List (List (List Cell)) → Nat → Except Nat (Nat × List (List Cell))
  | [], _ => .ok (0, [])
  | c :: rest, k =>
      if fails k then .error k
      else
        match transferChunks fails headers rest (k + 1) with
        | .error j => .error j
        | .ok r => .ok (c.length + r.1, gasNormalizeChunk headers c ++ r.2)

/-- Observable outcome of one `executeDataTransfer` run: the returned result,
the trace of `deleteRows` invocations issued on the source sheet, the first
failed chunk index (if an append threw), and the source sheet afterwards. -/
structure ExecOutcome where
  result : TransferResult
  deleteCalls : List (List Nat)
  failedChunk : Option Nat
  finalSource : List (List Cell)

/-- The success message of GAS_code.gs lines 537-539. -/
def successMessage (mode : Mode) (transferredCount duplicates : Nat) : String :=
  (if mode = Mode.move then "Successfully moved " else "Successfully copied ")
    ++ toString transferredCount ++ " rows. " ++ toString duplicates
    ++ " duplicates were skipped."

/-- Step 6 of `executeDataTransfer` (GAS_code.gs lines 524-546): in move mode
with at least one transferred row, issue the `deleteRows` call on the mapped
source rows; its failure (oracle `deleteFails`, or the call's own throw) is
caught and only warned about, leaving the returned result untouched. -/
def execMove (w : World) (p : Params) (sourceData : FilterResult)
    (dups : DupResult) (transferredCount : Nat) : ExecOutcome :=
  if p.mode = Mode.move ∧ transferredCount > 0 then
    let srcRowNums := dups.uniqueRows.map (fun i => sourceData.sourceRowNumbers.getD i 0)
    let rowsToDelete := srcRowNums.take transferredCount
    let src' :=
      if w.deleteFails then w.source
      else
        match deleteRowsModel w.source rowsToDelete with
        | .error _ => w.source
        | .ok rr => rr.1
    ⟨⟨true, transferredCount, dups.duplicateRows.length,
      successMessage p.mode transferredCount dups.duplicateRows.length⟩,
     [rowsToDelete], none, src'⟩
  else
    ⟨⟨true, transferredCount, dups.duplicateRows.length,
      successMessage p.mode transferredCount dups.duplicateRows.length⟩,
     [], none, w.source⟩

/-- Steps 4-5 of `executeDataTransfer` (GAS_code.gs lines 495-522): early
return when every row is a duplicate, otherwise append the unique rows in
chunks; a failing chunk is rethrown and caught at the top of the function,
which reports `success: false` with zero transferred rows (and never reaches
the deletion step). -/
def execDedup (w : World) (p : Params) (sourceData : FilterResult)
    (dups : DupResult) : ExecOutcome :=
  if dups.uniqueRows.length = 0 then
    ⟨⟨true, 0, dups.duplicateRows.length,
      "All rows are duplicates. No data was transferred."⟩, [], none, w.source⟩
  else
    let dataToTransfer := dups.uniqueRows.map (fun i => sourceData.rows.getD i [])
    match transferChunks w.appendFails sourceData.headers
        (chunksOf CHUNK_SIZE dataToTransfer) 0 with
    | .error k =>
        ⟨⟨false, 0, 0,
          "Transfer failed: Failed to transfer chunk "
            ++ toString (k * CHUNK_SIZE + 1)
            ++ ": Failed to append data chunk: append error"⟩,
         [], some k, w.source⟩
    | .ok res => execMove w p sourceData dups res.1

/-- Steps 2-3 of `executeDataTransfer` (GAS_code.gs lines 467-493): early
return on an empty filter result, otherwise read the destination's existing
data rows and run `findDuplicates`. -/
def execFiltered (w : World) (p : Params) (sourceData : FilterResult) :
    ExecOutcome :=
  if sourceData.rowCount = 0 then
    ⟨⟨true, 0, 0, "No data found for the selected date range."⟩, [], none, w.source⟩
  else
    execDedup w p sourceData (findDuplicates sourceData.rows (w.dest.rows.drop 1))

/-- `executeDataTransfer` from GAS_code.gs (lines 449-557): filter the source,
read existing destination rows, resolve duplicates, append unique rows in
chunks (a failing append is rethrown and caught at the top, reporting
`success: false` with zero transferred rows), then in move mode delete the
mapped source rows — a deletion failure is caught and only warned about.
Staged through `execFiltered`/`execDedup`/`execMove` above. -/
def gasExecuteDataTransfer (w : World) (p : Params) : ExecOutcome :=
  match gasGetFilteredData w.source p.fromMs p.toMs p.status with
  | .error e =>
      ⟨⟨false, 0, 0, "Transfer failed: " ++ e⟩, [], none, w.source⟩
  | .ok sourceData => execFiltered w p sourceData

/-- Response shape of the simulated service `getFilteredData`
(google-apps-script.ts lines 100-130). -/
structure GASResponse where
  headers : List String
  rows : List (List String)
  rowCount : Nat
deriving DecidableEq, Repr

/-- The simulated service's header set (google-apps-script.ts lines 36-43). -/
def SERVICE_HEADERS : List String :=
  ["ORDER ID", "TRACKING ID", "DATE", "CUSTOMER", "AMOUNT", "STATUS"]

/-- The simulated `getFilteredData` (google-apps-script.ts lines 100-130):
`rowCount = Math.floor(Math.random() * 200) + 50` (the random draw enters as
`rand`), while only `min(rowCount, 100)` preview rows are generated; the row
construction's content (ids, random amount/status) enters through `gen`. -/
def simFilteredData (rand : Nat) (gen : Nat → List String) : GASResponse :=
  let rowCount := rand % 200 + 50
  ⟨SERVICE_HEADERS, (List.range (min rowCount 100)).map gen, rowCount⟩

/-- `duplicateHandling` of the transfer route schema. -/
inductive DupHandling
  | skip
  | update
  | addAll
deriving DecidableEq, Repr

/-- The record stored in the `transferProgress` map (part_000 lines 43-53). -/
structure ProgressRecord where
  status : String
  progress : Nat
  message : String
  totalRows : Nat
  processedRows : Nat
  duplicates : Nat
  errors : Nat
deriving DecidableEq, Repr

/-- The duplicate key `${row[0]}_${row[1]}` of the transfer route
(part_000 line 193). -/
def routeKey (row : List String) : String :=
  row.getD 0 "undefined" ++ "_" ++ row.getD 1 "undefined"

/-- The progress record written by the transfer route (part_000 lines
188-221): `totalRows` is the service's `rowCount`, `processedRows` the number
of rows kept after the skip-mode duplicate filter against `existingKeys`. -/
def transferRouteRecord (data : GASResponse) (existingKeys : List String)
    (handling : DupHandling) (message : String) : ProgressRecord :=
  let rowsToTransfer :=
    if handling = DupHandling.skip then
      data.rows.filter (fun row => ¬ existingKeys.contains (routeKey row))
    else data.rows
  let duplicateCount :=
    if handling = DupHandling.skip then
      data.rows.countP (fun row => existingKeys.contains (routeKey row))
    else 0
  ⟨"completed", 100, message, data.rowCount, rowsToTransfer.length,
   duplicateCount, 0⟩

/-! ### Concrete cells and scenarios used by counterexamples and witnesses -/

/-- A plain string cell: renders as itself, is not a date, truthy iff
nonempty. -/
def strCell (s : String) : Cell := ⟨s, none, s != ""⟩

/-- A date-valued cell with timestamp `d` (string rendering irrelevant). -/
def dCell (d : Int) : Cell := ⟨"dstr", some d, true⟩

/-- C1 scenario: a source sheet whose first data row (sheet row 2) falls
outside the filter range and whose second data row (sheet row 3) falls
inside it. -/
def c1Sheet : List (List Cell) := [[strCell "DATE"], [dCell 200], [dCell 50]]

/-- C1 scenario world: the sheet above as source, a header-only destination,
no environmental failures. -/
def c1World : World := ⟨c1Sheet, ⟨[[strCell "DATE"]], 1⟩, fun _ => false, false⟩

/-- C1 scenario parameters: range `[0, 100]`, no status filter, move mode. -/
def c1Params : Params := ⟨0, 100, none, Mode.move⟩

/-- Scenario E destination: the canonical headers with CUSTOMER NAME
removed. -/
def destMissingCustomer : List String :=
  REQUIRED_HEADERS.filter (fun h => h ≠ "CUSTOMER NAME")

/-! ### Claim theorems -/

/-- C1: the claim states `sourceRowNumbers[i]` equals the retained row's
original index in the un-filtered data plus 2.  The code instead maps over
the *filtered* rows (`filteredRows.map((_, index) => index + 2)`), so the
un-filtered position is lost as soon as any earlier row is filtered out.  On
the C1 scenario, the single retained row sits at original index 1 (sheet row
3), but the code reports sheet row 2; the move-mode transfer then deletes
sheet row 2 — the row that was never transferred — and the transferred row
`dCell 50` survives in the source. -/
theorem sourceRowNumbers_uses_filtered_index :
    gasGetFilteredData c1Sheet 0 100 none =
      Except.ok ⟨[strCell "DATE"], [[dCell 50]], 1, [2]⟩ ∧
    (c1Sheet.drop 1).indexOf [dCell 50] + 2 = 3 ∧
    (gasExecuteDataTransfer c1World c1Params).deleteCalls = [[2]] ∧
    (gasExecuteDataTransfer c1World c1Params).finalSource =
      [[strCell "DATE"], [dCell 50]] := by
  refine ⟨by decide, by decide, by decide, by decide⟩

/-- C7: on the claim's own Scenario E input (destination lacking only
CUSTOMER NAME, source carrying the full canonical set), the code.gs
`validateHeaders` returns `extra = ["CUSTOMER NAME"]` — it computes `extra`
from the *source* headers (required ones absent from the destination), not
the destination headers outside the required set — while the GAS_code.gs
variant returns the claimed `{missing: ["CUSTOMER NAME"], extra: []}`. -/
theorem codeValidateHeaders_extra_mismatch_scenarioE :
    codeValidateHeaders REQUIRED_HEADERS destMissingCustomer =
      some ⟨REQUIRED_HEADERS, ["CUSTOMER NAME"], ["CUSTOMER NAME"]⟩ ∧
    gasValidateHeaders REQUIRED_HEADERS destMissingCustomer =
      some ⟨REQUIRED_HEADERS, ["CUSTOMER NAME"], []⟩ := by
  exact ⟨by decide, by decide⟩

/-- C9: the single write to the `transferProgress` map records
`totalRows = rowCount` and `processedRows = rowsToTransfer.length`, where the
simulated service returns at most `min(rowCount, 100)` rows and the route's
duplicate filter can only shrink that list — so `processedRows ≤ totalRows`
at every recorded update, for every random draw, row content, existing-key
set and duplicate-handling mode. -/
theorem progress_processed_le_total (rand : Nat) (gen : Nat → List String)
    (keys : List String) (handling : DupHandling) (msg : String) :
    (transferRouteRecord (simFilteredData rand gen) keys handling msg).processedRows ≤
      (transferRouteRecord (simFilteredData rand gen) keys handling msg).totalRows := by
  have hlen : ((List.range (min (rand % 200 + 50) 100)).map gen).length ≤ rand % 200 + 50 := by
    simp only [List.length_map, List.length_range]
    exact Nat.min_le_left _ _
  by_cases h : handling = DupHandling.skip
  · simpa [transferRouteRecord, simFilteredData, h] using
      le_trans (List.length_filter_le _ _) hlen
  · simp [transferRouteRecord, simFilteredData, h]

/-- C6 counterexample: on the duplicate input `[5, 5]` (sheet of 7 rows,
labelled by pre-deletion position minus one), the issued calls are `[5, 5]` —
not strictly descending — and after the first deletion shifts the layout the
second call removes pre-deletion row 6: the survivors are `[0,1,2,3,6]`,
whereas removing pre-deletion position 5 alone keeps `[0,1,2,3,5,6]`. -/
theorem deleteRows_duplicate_rownums_break_claim :
    deleteRowsModel (List.range 7) [5, 5] = Except.ok ([0, 1, 2, 3, 6], [5, 5]) ∧
    ¬ List.Pairwise (fun a b => a > b) [5, 5] ∧
    keepPos (fun p => !([5, 5].contains p)) (List.range 7) = [0, 1, 2, 3, 5, 6] := by
  refine ⟨by decide, by decide, by decide⟩

/-- C8 counterexample: `appendDataChunk` (GAS_code.gs) normalizes the written
rows to `max(headers.length, longest row)` — here 2 — and never consults the
destination's column count (3): the written row has 2 cells, not 3, so rows
are not padded/truncated to the destination sheet's column count. -/
theorem gasAppendDataChunk_ignores_dest_cols :
    gasAppendDataChunk ⟨[[strCell "H1", strCell "H2", strCell "H3"]], 3⟩
        [[strCell "x"]] [strCell "A", strCell "B"] =
      Except.ok ⟨[[strCell "H1", strCell "H2", strCell "H3"],
                  [strCell "x", emptyCell]], 3⟩ ∧
    ([strCell "x", emptyCell] : List Cell).length ≠ 3 := by
  refine ⟨by decide, by decide⟩

/-- Every normalized row has exactly `n` cells: padding first extends the row
to at least `n`, and `slice(0, n)` then cuts it to exactly `n`. -/
theorem padTrunc_length (e : α) (n : Nat) (row : List α) :
    (padTrunc e n row).length = n := by
  unfold padTrunc
  simp only [List.length_take, List.length_append, List.length_replicate]
  omega

/-- C8 (amended): the code.gs `appendChunk` pads/truncates every written row
to exactly the destination's column count whenever that count is nonzero, and
both variants advance the next-empty-row cursor by the chunk length; the
GAS_code.gs `appendDataChunk` instead normalizes every written row to
`max(headers.length, longest chunk row)`, ignoring the destination's column
count. -/
theorem append_normalizes_and_advances (dest : SheetW) (chunk : List (List Cell))
    (headers : List Cell) (d₁ d₂ : SheetW)
    (hcols : dest.cols ≠ 0)
    (hc : codeAppendChunk dest chunk = Except.ok d₁)
    (hg : gasAppendDataChunk dest chunk headers = Except.ok d₂) :
    (∀ row ∈ d₁.rows.drop dest.rows.length, row.length = dest.cols) ∧
    d₁.rows.length = dest.rows.length + chunk.length ∧
    (∀ row ∈ d₂.rows.drop dest.rows.length,
        row.length = max headers.length (maxRowLen chunk)) ∧
    d₂.rows.length = dest.rows.length + chunk.length := by
  unfold codeAppendChunk at hc
  unfold gasAppendDataChunk at hg
  split at hc
  · exact absurd hc (by simp)
  · split at hg
    · exact absurd hg (by simp)
    · cases hc
      cases hg
      simp only [List.drop_left, List.length_append, List.length_map, gasNormalizeChunk]
      refine ⟨?_, ?_, ?_, ?_⟩
      · intro row hrow
        rcases List.mem_map.mp hrow with ⟨r, _, hr⟩
        rw [← hr, padTrunc_length]
      · simp [hcols]
      · intro row hrow
        rcases List.mem_map.mp hrow with ⟨r, _, hr⟩
        rw [← hr, padTrunc_length]
      · simp

/-- C8 amended witness: a destination with 3 columns, a one-cell chunk and a
two-header list — `appendChunk` writes a 3-cell row, `appendDataChunk` a
2-cell row, and both advance the cursor by 1. -/
theorem append_normalizes_and_advances_witness :
    (∀ row ∈ (⟨[[strCell "H1", strCell "H2", strCell "H3"],
                [strCell "x", emptyCell, emptyCell]], 3⟩ : SheetW).rows.drop
        ((⟨[[strCell "H1", strCell "H2", strCell "H3"]], 3⟩ : SheetW).rows.length),
      row.length = (⟨[[strCell "H1", strCell "H2", strCell "H3"]], 3⟩ : SheetW).cols) ∧
    (⟨[[strCell "H1", strCell "H2", strCell "H3"],
       [strCell "x", emptyCell, emptyCell]], 3⟩ : SheetW).rows.length =
      (⟨[[strCell "H1", strCell "H2", strCell "H3"]], 3⟩ : SheetW).rows.length +
        ([[strCell "x"]] : List (List Cell)).length ∧
    (∀ row ∈ (⟨[[strCell "H1", strCell "H2", strCell "H3"],
                [strCell "x", emptyCell]], 3⟩ : SheetW).rows.drop
        ((⟨[[strCell "H1", strCell "H2", strCell "H3"]], 3⟩ : SheetW).rows.length),
      row.length = max ([strCell "A", strCell "B"] : List Cell).length
        (maxRowLen ([[strCell "x"]] : List (List Cell)))) ∧
    (⟨[[strCell "H1", strCell "H2", strCell "H3"],
       [strCell "x", emptyCell]], 3⟩ : SheetW).rows.length =
      (⟨[[strCell "H1", strCell "H2", strCell "H3"]], 3⟩ : SheetW).rows.length +
        ([[strCell "x"]] : List (List Cell)).length :=
  append_normalizes_and_advances ⟨[[strCell "H1", strCell "H2", strCell "H3"]], 3⟩
    [[strCell "x"]] [strCell "A", strCell "B"] _ _
    (by decide) (by decide) (by decide)

/-- C2: every row retained by either `getFilteredData` variant carries a
valid date `d` with `fromMs ≤ d ≤ endOfDay(toMs)` (the GAS variant even
enforces the stricter `d ≤ toMs`), and in the GAS variant, when a status
filter is supplied and a status column exists, the retained row's status cell
matches the filter case-insensitively after trimming. -/
theorem filter_output_within_range_and_status
    (sheet : List (List Cell)) (fromMs toMs : Int) (status : Option String)
    (res : FilterResult) (res2 : CodeFilterResult) (row row2 : List Cell) :
    (gasGetFilteredData sheet fromMs toMs status = Except.ok res → row ∈ res.rows →
      ∃ di, (sheet.headD []).findIdx? (headerMatches "date") = some di ∧
        (∃ d, (cellAt row di).date = some d ∧ fromMs ≤ d ∧ d ≤ toMs + END_OF_DAY_MS) ∧
        (∀ s si, status = some s →
          (sheet.headD []).findIdx? (headerMatches "status") = some si →
          lowStr (trimStr (cellAt row si).str) = lowStr s)) ∧
    (codeGetFilteredData sheet fromMs toMs = Except.ok res2 → row2 ∈ res2.rows →
      ∃ di, (sheet.headD []).findIdx? (headerMatches "date") = some di ∧
        ∃ d, (cellAt row2 di).date = some d ∧ fromMs ≤ d ∧ d ≤ toMs + END_OF_DAY_MS) := by
  constructor
  · intro hok hmem
    unfold gasGetFilteredData at hok
    split at hok
    · cases hok
      simp at hmem
    · dsimp only at hok
      split at hok
      · exact absurd hok (by simp)
      · rename_i di hdi
        cases hok
        refine ⟨di, hdi, ?_, ?_⟩
        · have hp := List.of_mem_filter hmem
          have hdate : jsDateInRange (cellAt row di) fromMs toMs = true := by
            unfold gasRowMatch at hp
            rcases status with _ | s
            · simpa using hp
            · rcases hsi : (sheet.headD []).findIdx? (headerMatches "status") with _ | si <;>
                rw [hsi] at hp <;> simp at hp
              · exact hp
              · exact hp.1
          unfold jsDateInRange at hdate
          rcases hcd : (cellAt row di).date with _ | d <;> rw [hcd] at hdate
          · simp at hdate
          · simp at hdate
            have : (0 : Int) ≤ END_OF_DAY_MS := by decide
            exact ⟨d, rfl, hdate.1, by unfold END_OF_DAY_MS; omega⟩
        · intro s si hs hsi
          subst hs
          have hp := List.of_mem_filter hmem
          unfold gasRowMatch at hp
          rw [hsi] at hp
          simp at hp
          exact hp.2
  · intro hok hmem
    unfold codeGetFilteredData at hok
    split at hok
    · cases hok
      simp at hmem
    · dsimp only at hok
      split at hok
      · exact absurd hok (by simp)
      · rename_i di hdi
        cases hok
        have hp := List.of_mem_filter hmem
        unfold jsDateInRange at hp
        rcases hcd : (cellAt row2 di).date with _ | d <;> rw [hcd] at hp
        · simp at hp
        · simp at hp
          exact ⟨di, hdi, d, hcd, hp.1, hp.2⟩

/-- C2 scenario: a sheet with a DATE and a STATUS column and one data row
dated 50 with status " Pending ". -/
def c2Sheet : List (List Cell) :=
  [[strCell "DATE", strCell "STATUS"], [dCell 50, strCell " Pending "]]

/-- The single data row of the C2 scenario. -/
def c2Row : List Cell := [dCell 50, strCell " Pending "]

/-- C2 witness: on the scenario sheet with range `[0, 100]` and status filter
"PENDING", both variants retain the row, and the claimed bounds and status
match hold for it. -/
theorem filter_output_within_range_and_status_witness :
    (∃ di, (c2Sheet.headD []).findIdx? (headerMatches "date") = some di ∧
      (∃ d, (cellAt c2Row di).date = some d ∧ (0 : Int) ≤ d ∧ d ≤ 100 + END_OF_DAY_MS) ∧
      (∀ s si, (some "PENDING" : Option String) = some s →
        (c2Sheet.headD []).findIdx? (headerMatches "status") = some si →
        lowStr (trimStr (cellAt c2Row si).str) = lowStr s)) ∧
    (∃ di, (c2Sheet.headD []).findIdx? (headerMatches "date") = some di ∧
      ∃ d, (cellAt c2Row di).date = some d ∧ (0 : Int) ≤ d ∧ d ≤ 100 + END_OF_DAY_MS) :=
  ⟨(filter_output_within_range_and_status c2Sheet 0 100 (some "PENDING")
      ⟨[strCell "DATE", strCell "STATUS"], [c2Row], 1, [2]⟩
      ⟨["DATE", "STATUS"], [c2Row], [["dstr", " Pending "]], 1⟩ c2Row c2Row).1
      (by decide) (by decide),
   (filter_output_within_range_and_status c2Sheet 0 100 (some "PENDING")
      ⟨[strCell "DATE", strCell "STATUS"], [c2Row], 1, [2]⟩
      ⟨["DATE", "STATUS"], [c2Row], [["dstr", " Pending "]], 1⟩ c2Row c2Row).2
      (by decide) (by decide)⟩

/-! ### Duplicate-resolver characterization (C3) and noninterference (C10) -/

/-- The key-set evolution for one candidate row: an accepted nonempty key is
added immediately; duplicates and empty keys leave the set unchanged. -/
def updateKeys (col : Nat) (row : List Cell) (keys : List String) : List String :=
  let k := jsKey (cellAt row col)
  if k ≠ "" && !keys.contains k then k :: keys else keys

/-- The key set held by the walk just before processing candidate index `j`
(given the initial, seeded set `keys`). -/
def stepKeys (col : Nat) : List (List Cell) → List String → Nat → List String
  | _, keys, 0 => keys
  | [], keys, _ + 1 => keys
  | row :: rest, keys, j + 1 => stepKeys col rest (updateKeys col row keys) j

/-- The key set just before candidate `i`, seeded from the existing rows —
the state the claim's "key set" refers to. -/
def keySetAt (existing cand : List (List Cell)) (i : Nat) : List String :=
  stepKeys (REQUIRED_HEADERS.indexOf "ORDER ID") cand
    (seedKeys (REQUIRED_HEADERS.indexOf "ORDER ID") existing) i

/-- The identity key of candidate row `i` (the ORDER ID column). -/
def candKey (cand : List (List Cell)) (i : Nat) : String :=
  jsKey (cellAt (cand.getD i []) (REQUIRED_HEADERS.indexOf "ORDER ID"))

/-- Every index emitted by the walk is at least the running index. -/
theorem fdAux_lb (col : Nat) (rows : List (List Cell)) :
    ∀ (idx : Nat) (keys : List String),
    (∀ m ∈ (fdAux col idx rows keys).1, idx ≤ m) ∧
    (∀ m ∈ (fdAux col idx rows keys).2, idx ≤ m) := by
  induction rows with
  | nil => intro idx keys; simp [fdAux]
  | cons row rest ih =>
      intro idx keys
      unfold fdAux
      dsimp only
      split
      · refine ⟨?_, ?_⟩
        · intro m hm
          exact Nat.le_of_succ_le ((ih (idx + 1) _).1 m hm)
        · intro m hm
          rcases List.mem_cons.mp hm with h | h
          · omega
          · exact Nat.le_of_succ_le ((ih (idx + 1) _).2 m h)
      · refine ⟨?_, ?_⟩
        · intro m hm
          rcases List.mem_cons.mp hm with h | h
          · omega
          · exact Nat.le_of_succ_le ((ih (idx + 1) _).1 m h)
        · intro m hm
          exact Nat.le_of_succ_le ((ih (idx + 1) _).2 m hm)

/-- Characterization of the walk: index `idx + j` lands in `duplicateRows`
exactly when its key is nonempty and already in the key set before step `j`,
and in `uniqueRows` otherwise. -/
theorem fdAux_char (col : Nat) (rows : List (List Cell)) :
    ∀ (idx j : Nat) (keys : List String), j < rows.length →
    ((idx + j) ∈ (fdAux col idx rows keys).2 ↔
      (jsKey (cellAt (rows.getD j []) col) ≠ "" ∧
       jsKey (cellAt (rows.getD j []) col) ∈ stepKeys col rows keys j)) ∧
    ((idx + j) ∈ (fdAux col idx rows keys).1 ↔
      ¬ (jsKey (cellAt (rows.getD j []) col) ≠ "" ∧
         jsKey (cellAt (rows.getD j []) col) ∈ stepKeys col rows keys j)) := by
  induction rows with
  | nil => intro idx j keys h; simp at h
  | cons row rest ih =>
      intro idx j keys h
      match j with
      | 0 =>
          unfold fdAux
          dsimp only
          split
          · rename_i hg
            rw [Bool.and_eq_true, decide_eq_true_iff] at hg
            have hlb := fdAux_lb col rest (idx + 1) keys
            simp only [Nat.add_zero, List.getD_cons_zero, stepKeys]
            exact ⟨⟨fun _ => ⟨hg.1, List.mem_of_elem_eq_true hg.2⟩,
                   fun _ => List.mem_cons_self _ _⟩,
                  ⟨fun hm => absurd (hlb.1 idx hm) (by omega),
                   fun hcon => absurd ⟨hg.1, List.mem_of_elem_eq_true hg.2⟩ hcon⟩⟩
          · rename_i hg
            have hgk : jsKey (cellAt row col) ≠ "" →
                keys.contains (jsKey (cellAt row col)) = false := by
              intro hk
              cases hcc : keys.contains (jsKey (cellAt row col))
              · rfl
              · exact absurd (by rw [Bool.and_eq_true, decide_eq_true_iff]; exact ⟨hk, hcc⟩) hg
            have hrhs : ¬ (jsKey (cellAt row col) ≠ "" ∧ jsKey (cellAt row col) ∈ keys) := by
              rintro ⟨hk, hm⟩
              have hel : List.elem (jsKey (cellAt row col)) keys = true :=
                List.elem_eq_true_of_mem hm
              have hel2 : List.elem (jsKey (cellAt row col)) keys = false := hgk hk
              rw [hel] at hel2
              simp at hel2
            have hlb := fdAux_lb col rest (idx + 1)
              (if jsKey (cellAt row col) ≠ "" then jsKey (cellAt row col) :: keys else keys)
            simp only [Nat.add_zero, List.getD_cons_zero, stepKeys]
            exact ⟨⟨fun hm => absurd ((hlb).2 idx hm) (by omega),
                   fun hcon => absurd hcon hrhs⟩,
                  ⟨fun _ => hrhs, fun _ => List.mem_cons_self _ _⟩⟩
      | jj + 1 =>
          have hlt : jj < rest.length := by simpa using h
          have hidx : idx + (jj + 1) = (idx + 1) + jj := by omega
          have hstep : stepKeys col (row :: rest) keys (jj + 1) =
              stepKeys col rest (updateKeys col row keys) jj := rfl
          unfold fdAux
          dsimp only
          split
          · rename_i hg
            rw [Bool.and_eq_true, decide_eq_true_iff] at hg
            have hup : updateKeys col row keys = keys := by
              unfold updateKeys
              dsimp only
              rw [hg.2]
              simp
            rw [hstep, hup]
            have hih := ih (idx + 1) jj keys hlt
            simp only [List.getD_cons_succ, hidx]
            constructor
            · rw [List.mem_cons]
              constructor
              · intro hm
                rcases hm with hm | hm
                · omega
                · exact hih.1.mp hm
              · intro hcon
                right
                exact hih.1.mpr hcon
            · exact hih.2
          · rename_i hg
            have hup : updateKeys col row keys =
                (if jsKey (cellAt row col) ≠ "" then jsKey (cellAt row col) :: keys
                 else keys) := by
              unfold updateKeys
              dsimp only
              by_cases hk : jsKey (cellAt row col) = ""
              · simp [hk]
              · have hc : keys.contains (jsKey (cellAt row col)) = false := by
                  cases hcc : keys.contains (jsKey (cellAt row col))
                  · rfl
                  · exact absurd
                      (by rw [Bool.and_eq_true, decide_eq_true_iff]; exact ⟨hk, hcc⟩) hg
                rw [hc]
                simp [hk]
            rw [hstep, hup]
            have hih := ih (idx + 1) jj
              (if jsKey (cellAt row col) ≠ "" then jsKey (cellAt row col) :: keys else keys) hlt
            simp only [List.getD_cons_succ, hidx]
            constructor
            · exact hih.1
            · rw [List.mem_cons]
              constructor
              · intro hm
                rcases hm with hm | hm
                · omega
                · exact hih.2.mp hm
              · intro hcon
                right
                exact hih.2.mpr hcon

/-- Unfolding the key set one step: the set before candidate `i + 1` is the
set before candidate `i` updated with row `i`'s key. -/
theorem stepKeys_succ (col : Nat) (cand : List (List Cell)) :
    ∀ (keys : List String) (i : Nat),
    stepKeys col cand keys (i + 1) =
      updateKeys col (cand.getD i []) (stepKeys col cand keys i) := by
  induction cand with
  | nil =>
      intro keys i
      cases i <;> simp [stepKeys, updateKeys, cellAt, jsKey, undefCell]
  | cons row rest ih =>
      intro keys i
      match i with
      | 0 => simp [stepKeys]
      | ii + 1 =>
          have : stepKeys col (row :: rest) keys (ii + 1 + 1) =
              stepKeys col rest (updateKeys col row keys) (ii + 1) := rfl
          rw [this, ih]
          rfl

/-- GAS_code.gs `findDuplicates`: walking `candidateRows` in order, index `i`
is flagged duplicate exactly when its identity key is nonempty and already
present in the key set (seeded from the existing rows, accepted keys added
immediately), it is accepted otherwise — in particular an empty-keyed row is
always unique — and an empty key leaves the key set unchanged. -/
theorem findDuplicates_membership_characterization
    (cand existing : List (List Cell)) (i : Nat) (h : i < cand.length) :
    (i ∈ (findDuplicates cand existing).duplicateRows ↔
      candKey cand i ≠ "" ∧ candKey cand i ∈ keySetAt existing cand i) ∧
    (i ∈ (findDuplicates cand existing).uniqueRows ↔
      ¬ (candKey cand i ≠ "" ∧ candKey cand i ∈ keySetAt existing cand i)) ∧
    (candKey cand i = "" → keySetAt existing cand (i + 1) = keySetAt existing cand i) := by
  have hguard : ¬ (REQUIRED_HEADERS.indexOf "ORDER ID" = REQUIRED_HEADERS.length) := by decide
  unfold findDuplicates
  rw [if_neg hguard]
  have hchar := fdAux_char (REQUIRED_HEADERS.indexOf "ORDER ID") cand 0 i
    (seedKeys (REQUIRED_HEADERS.indexOf "ORDER ID") existing) h
  rw [Nat.zero_add] at hchar
  refine ⟨hchar.1, hchar.2, ?_⟩
  intro hk
  unfold keySetAt
  rw [stepKeys_succ]
  unfold updateKeys
  simp [candKey] at hk
  simp [hk]

/-- C3 scenario candidates: two rows sharing key "A" and one row with an
empty key cell. -/
def c3Cand : List (List Cell) :=
  [[strCell "x", strCell "A"], [strCell "y", strCell "A"], [strCell "z", strCell ""]]

/-- `getExistingKeys` from code.gs (lines 221-259): the destination's
deduplicated `ORDERID_TRACKINGID` key strings, built from rows whose two
identity cells are both truthy. -/
def getExistingKeys (sheet : List (List Cell)) : Except String (List String) :=
  if sheet.length ≤ 1 then .ok []
  else
    let headers := sheet.headD []
    let rows := sheet.drop 1
    match headers.findIdx? (fun h =>
            strIncludes (lowStr h.str) "order" && strIncludes (lowStr h.str) "id"),
          headers.findIdx? (fun h =>
            strIncludes (lowStr h.str) "tracking" && strIncludes (lowStr h.str) "id") with
    | some oi, some ti =>
        .ok (((rows.filter (fun r => (cellAt r oi).truthy && (cellAt r ti).truthy)).map
          (fun r => (cellAt r oi).str ++ "_" ++ (cellAt r ti).str)).eraseDups)
    | _, _ => .error "ORDER ID or TRACKING ID column not found"

/-- Result of the code.gs inline duplicate resolution (code.gs lines
451-464): the accepted and rejected rows themselves plus the (filtered-index
based) source row numbers of the accepted ones. -/
structure CodeDupResult where
  uniqueRows : List (List String)
  duplicateRows : List (List String)
  sourceRowNumbers : List Nat
deriving DecidableEq, Repr

/-- The candidate key of the code.gs resolver:
`${row[orderIdIndex]}_${row[trackingIdIndex]}` (code.gs line 456); a missing
cell renders as "undefined" in the template string. -/
def codeRowKey (orderIdx trackingIdx : Nat) (row : List String) : String :=
  row.getD orderIdx "undefined" ++ "_" ++ row.getD trackingIdx "undefined"

/-- The `forEach` walk of code.gs lines 455-464: a candidate is pushed to
`duplicateRows` exactly when its key is in the static `existingKeys` list;
accepted rows are pushed to `uniqueRows` with `index + 2` — `existingKeys` is
never mutated. -/
def codeDedupLoop (orderIdx trackingIdx : Nat) (existingKeys : List String) :
    List (List String) → Nat → CodeDupResult
  | [], _ => ⟨[], [], []⟩
  | row :: rest, index =>
      let r := codeDedupLoop orderIdx trackingIdx existingKeys rest (index + 1)
      if existingKeys.contains (codeRowKey orderIdx trackingIdx row) then
        ⟨r.uniqueRows, row :: r.duplicateRows, r.sourceRowNumbers⟩
      else
        ⟨row :: r.uniqueRows, r.duplicateRows, (index + 2) :: r.sourceRowNumbers⟩

/-- The code.gs duplicate resolution of `executeDataTransfer` (lines
444-464): locate the ORDER ID / TRACKING ID columns by substring match
(throwing when absent) and run the walk. -/
def codeFindDuplicateRows (headers : List String) (existingKeys : List String)
    (rows : List (List String)) : Except String CodeDupResult :=
  match headers.findIdx? (fun h =>
          strIncludes (lowStr h) "order" && strIncludes (lowStr h) "id"),
        headers.findIdx? (fun h =>
          strIncludes (lowStr h) "tracking" && strIncludes (lowStr h) "id") with
  | some oi, some ti => .ok (codeDedupLoop oi ti existingKeys rows 0)
  | _, _ => .error "ORDER ID or TRACKING ID columns not found in source data"

/-- The code.gs walk is a plain filter against the static key list: each
candidate's classification depends only on its own key's membership in
`existingKeys`, independently of the other candidates. -/
theorem codeDedupLoop_filter (oi ti : Nat) (existingKeys : List String) :
    ∀ (rows : List (List String)) (idx : Nat),
    (codeDedupLoop oi ti existingKeys rows idx).uniqueRows =
      rows.filter (fun row => !(existingKeys.contains (codeRowKey oi ti row))) ∧
    (codeDedupLoop oi ti existingKeys rows idx).duplicateRows =
      rows.filter (fun row => existingKeys.contains (codeRowKey oi ti row)) := by
  intro rows
  induction rows with
  | nil => intro idx; exact ⟨rfl, rfl⟩
  | cons row rest ih =>
      intro idx
      unfold codeDedupLoop
      dsimp only
      rw [List.filter_cons, List.filter_cons]
      by_cases hc : existingKeys.contains (codeRowKey oi ti row) = true
      · simp only [hc, if_pos, Bool.not_true, Bool.false_eq_true, if_false, if_true]
        exact ⟨(ih (idx + 1)).1, by rw [(ih (idx + 1)).2]⟩
      · have hc2 : existingKeys.contains (codeRowKey oi ti row) = false := by
          revert hc; cases existingKeys.contains (codeRowKey oi ti row) <;> simp
        simp only [hc2, Bool.false_eq_true, if_false, Bool.not_false, if_true]
        exact ⟨by rw [(ih (idx + 1)).1], (ih (idx + 1)).2⟩

/-- C3 counterexample: the code.gs resolver run on two candidates sharing the
nonempty key "A_T" against an empty destination (whose `getExistingKeys` is
`[]`) accepts BOTH rows — `duplicateRows` is empty, refuting the claim's
clause that an accepted row's key is added immediately so that two candidate
rows sharing a key are deduplicated against each other.  The GAS_code.gs
`findDuplicates` on the corresponding input does flag the second row. -/
theorem codeDedup_accepts_inbatch_shared_key :
    getExistingKeys [[strCell "ORDER ID", strCell "TRACKING ID"]] = Except.ok [] ∧
    codeFindDuplicateRows ["ORDER ID", "TRACKING ID"] [] [["A", "T"], ["A", "T"]] =
      Except.ok ⟨[["A", "T"], ["A", "T"]], [], [2, 3]⟩ ∧
    codeRowKey 0 1 ["A", "T"] ≠ "" ∧
    (findDuplicates [[strCell "x", strCell "A"], [strCell "y", strCell "A"]] []).duplicateRows
      = [1] := by
  refine ⟨by decide, by decide, by decide, by decide⟩

/-- C3 (amended): in the GAS_code.gs `findDuplicates` resolver, walking
`candidateRows` in order, index `i` is flagged duplicate exactly when its
identity key is nonempty and already in the key set — seeded from the
existing rows, with accepted nonempty keys added immediately, so two in-batch
candidates sharing a key are deduplicated against each other — an empty-keyed
row is always unique and leaves the key set unchanged; the code.gs inline
resolver of `executeDataTransfer` instead classifies every candidate solely
by membership of its `ORDERID_TRACKINGID` key in the static destination key
list: accepted keys are never added, so its output lists are plain filters of
the candidates by that static membership. -/
theorem duplicate_resolution_characterized
    (cand existing : List (List Cell)) (i : Nat) (h : i < cand.length)
    (oi ti : Nat) (existingKeys : List String) (rows : List (List String)) :
    ((i ∈ (findDuplicates cand existing).duplicateRows ↔
        candKey cand i ≠ "" ∧ candKey cand i ∈ keySetAt existing cand i) ∧
     (i ∈ (findDuplicates cand existing).uniqueRows ↔
        ¬ (candKey cand i ≠ "" ∧ candKey cand i ∈ keySetAt existing cand i)) ∧
     (candKey cand i = "" → keySetAt existing cand (i + 1) = keySetAt existing cand i)) ∧
    ((codeDedupLoop oi ti existingKeys rows 0).duplicateRows =
        rows.filter (fun row => existingKeys.contains (codeRowKey oi ti row)) ∧
     (codeDedupLoop oi ti existingKeys rows 0).uniqueRows =
        rows.filter (fun row => !(existingKeys.contains (codeRowKey oi ti row)))) :=
  ⟨findDuplicates_membership_characterization cand existing i h,
   (codeDedupLoop_filter oi ti existingKeys rows 0).2,
   (codeDedupLoop_filter oi ti existingKeys rows 0).1⟩

/-- C3 amended witness: with no existing rows, GAS candidate 1 (second "A")
is a duplicate purely against candidate 0's freshly added key; the code.gs
resolver with static keys `["A_T"]` filters the candidate batch by that
membership alone. -/
theorem duplicate_resolution_characterized_witness :
    ((1 ∈ (findDuplicates c3Cand []).duplicateRows ↔
        candKey c3Cand 1 ≠ "" ∧ candKey c3Cand 1 ∈ keySetAt [] c3Cand 1) ∧
     (1 ∈ (findDuplicates c3Cand []).uniqueRows ↔
        ¬ (candKey c3Cand 1 ≠ "" ∧ candKey c3Cand 1 ∈ keySetAt [] c3Cand 1)) ∧
     (candKey c3Cand 1 = "" → keySetAt [] c3Cand 2 = keySetAt [] c3Cand 1)) ∧
    ((codeDedupLoop 0 1 ["A_T"] [["A", "T"], ["B", "T"]] 0).duplicateRows =
        [["A", "T"], ["B", "T"]].filter
          (fun row => (["A_T"] : List String).contains (codeRowKey 0 1 row)) ∧
     (codeDedupLoop 0 1 ["A_T"] [["A", "T"], ["B", "T"]] 0).uniqueRows =
        [["A", "T"], ["B", "T"]].filter
          (fun row => !((["A_T"] : List String).contains (codeRowKey 0 1 row)))) :=
  duplicate_resolution_characterized c3Cand [] 1 (by decide) 0 1 ["A_T"]
    [["A", "T"], ["B", "T"]]

/-- The walk reads a row only through its key. -/
def fdKeys : List String → Nat → List String → List Nat × List Nat
  | [], _, _ => ([], [])
  | k :: rest, idx, keys =>
      if k ≠ "" && keys.contains k then
        let r := fdKeys rest (idx + 1) keys
        (r.1, idx :: r.2)
      else
        let r := fdKeys rest (idx + 1) (if k ≠ "" then k :: keys else keys)
        (idx :: r.1, r.2)

/-- `fdAux` factors through the per-row keys. -/
theorem fdAux_eq_fdKeys (col : Nat) (rows : List (List Cell)) :
    ∀ (idx : Nat) (keys : List String),
    fdAux col idx rows keys =
      fdKeys (rows.map (fun r => jsKey (cellAt r col))) idx keys := by
  induction rows with
  | nil => intro idx keys; rfl
  | cons row rest ih =>
      intro idx keys
      unfold fdAux fdKeys
      simp only [List.map_cons]
      split <;> rw [ih]

/-- The key-set seeding reads an existing row only through its identity
cell. -/
def seedCells (cells : List Cell) : List String :=
  cells.foldl (fun s c => if c.truthy then trimStr c.str :: s else s) []

/-- `seedKeys` factors through the identity-column cells. -/
theorem seedKeys_eq_seedCells (col : Nat) (rows : List (List Cell)) :
    seedKeys col rows = seedCells (rows.map (fun r => cellAt r col)) := by
  unfold seedKeys seedCells
  rw [List.foldl_map]

/-- C10: `findDuplicates` reads candidate and existing rows only through
column 1 — the position of ORDER ID in `REQUIRED_HEADERS` — so any two input
pairs that agree cell-for-cell in that column produce identical `uniqueRows`
and `duplicateRows` index lists. -/
theorem findDuplicates_depends_only_on_order_id_column
    (nd₁ nd₂ ex₁ ex₂ : List (List Cell))
    (hn : nd₁.map (fun r => cellAt r 1) = nd₂.map (fun r => cellAt r 1))
    (he : ex₁.map (fun r => cellAt r 1) = ex₂.map (fun r => cellAt r 1)) :
    findDuplicates nd₁ ex₁ = findDuplicates nd₂ ex₂ := by
  have hcol : REQUIRED_HEADERS.indexOf "ORDER ID" = 1 := by decide
  have hguard : ¬ (REQUIRED_HEADERS.indexOf "ORDER ID" = REQUIRED_HEADERS.length) := by decide
  have hkeys : nd₁.map (fun r => jsKey (cellAt r 1)) = nd₂.map (fun r => jsKey (cellAt r 1)) := by
    have h₁ : (fun r => jsKey (cellAt r 1)) = jsKey ∘ (fun (r : List Cell) => cellAt r 1) := rfl
    rw [h₁, ← List.map_map, hn, List.map_map]
  have hseed : seedKeys 1 ex₁ = seedKeys 1 ex₂ := by
    rw [seedKeys_eq_seedCells, seedKeys_eq_seedCells, he]
  unfold findDuplicates
  rw [if_neg hguard, if_neg hguard, hcol]
  rw [fdAux_eq_fdKeys, fdAux_eq_fdKeys, hkeys, hseed]

/-- C10 witness: two candidate/existing pairs that differ everywhere except
in column 1 yield the same duplicate partition. -/
theorem findDuplicates_depends_only_on_order_id_column_witness :
    ([[strCell "a", strCell "K", strCell "x"]] : List (List Cell)).map (fun r => cellAt r 1) =
      ([[strCell "b", strCell "K", strCell "y"]] : List (List Cell)).map (fun r => cellAt r 1) ∧
    ([[strCell "c", strCell "K"]] : List (List Cell)).map (fun r => cellAt r 1) =
      ([[strCell "d", strCell "K"]] : List (List Cell)).map (fun r => cellAt r 1) ∧
    findDuplicates [[strCell "a", strCell "K", strCell "x"]] [[strCell "c", strCell "K"]] =
      findDuplicates [[strCell "b", strCell "K", strCell "y"]] [[strCell "d", strCell "K"]] :=
  ⟨by decide, by decide,
   findDuplicates_depends_only_on_order_id_column _ _ _ _ (by decide) (by decide)⟩

/-! ### Chunked-transfer executor: failure handling (C4, C5) -/

/-- The deletion step never reports a failed chunk. -/
theorem execMove_failedChunk (w : World) (p : Params) (sd : FilterResult)
    (dups : DupResult) (n : Nat) : (execMove w p sd dups n).failedChunk = none := by
  unfold execMove
  split <;> rfl

/-- The deletion step always reports success. -/
theorem execMove_success (w : World) (p : Params) (sd : FilterResult)
    (dups : DupResult) (n : Nat) : (execMove w p sd dups n).result.success = true := by
  unfold execMove
  split <;> rfl

/-- The returned result of the deletion step does not depend on whether the
`deleteRows` call fails. -/
theorem execMove_result_ignores_deleteFails (w : World) (p : Params)
    (sd : FilterResult) (dups : DupResult) (n : Nat) :
    (execMove w p sd dups n).result =
      (execMove {w with deleteFails := false} p sd dups n).result := by
  unfold execMove
  split <;> rfl

/-- C4: whenever a chunk append fails mid-transfer (the run records a failed
chunk index), the executor reports the whole transfer failed with
`transferredRows = 0`, and no `deleteRows` call is ever issued on the source,
even in move mode. -/
theorem append_failure_reports_failed_no_deletes (w : World) (p : Params)
    (k : Nat) (h : (gasExecuteDataTransfer w p).failedChunk = some k) :
    (gasExecuteDataTransfer w p).result.success = false ∧
    (gasExecuteDataTransfer w p).result.transferredRows = 0 ∧
    (gasExecuteDataTransfer w p).deleteCalls = [] := by
  unfold gasExecuteDataTransfer at h ⊢
  revert h
  rcases hf : gasGetFilteredData w.source p.fromMs p.toMs p.status with e | sd <;>
    dsimp only <;> intro h
  · simp at h
  · unfold execFiltered at h ⊢
    by_cases h0 : sd.rowCount = 0
    · rw [if_pos h0] at h
      simp at h
    · rw [if_neg h0] at h ⊢
      unfold execDedup at h ⊢
      by_cases h1 : (findDuplicates sd.rows (w.dest.rows.drop 1)).uniqueRows.length = 0
      · rw [if_pos h1] at h
        simp at h
      · rw [if_neg h1] at h ⊢
        dsimp only at h ⊢
        revert h
        rcases ht : transferChunks w.appendFails sd.headers
            (chunksOf CHUNK_SIZE
              ((findDuplicates sd.rows (w.dest.rows.drop 1)).uniqueRows.map
                (fun i => sd.rows.getD i []))) 0 with k2 | res <;>
          dsimp only <;> intro h
        · exact ⟨rfl, rfl, rfl⟩
        · rw [execMove_failedChunk] at h
          simp at h

/-- C4 scenario world: one transferable source row, every chunk append
throws. -/
def c4World : World := ⟨c1Sheet, ⟨[[strCell "DATE"]], 1⟩, fun _ => true, false⟩

/-- C4 witness: on the failing-append world the run records failed chunk 0,
reports failure with zero transferred rows, and issues no deletes. -/
theorem append_failure_reports_failed_no_deletes_witness :
    (gasExecuteDataTransfer c4World c1Params).result.success = false ∧
    (gasExecuteDataTransfer c4World c1Params).result.transferredRows = 0 ∧
    (gasExecuteDataTransfer c4World c1Params).deleteCalls = [] :=
  append_failure_reports_failed_no_deletes c4World c1Params 0 (by decide)

/-- The returned result of a whole run never depends on whether the
move-mode `deleteRows` call fails: the failure is caught and only logged. -/
theorem run_result_ignores_deleteFails (w : World) (p : Params) :
    (gasExecuteDataTransfer w p).result =
      (gasExecuteDataTransfer {w with deleteFails := false} p).result := by
  unfold gasExecuteDataTransfer
  dsimp only
  rcases gasGetFilteredData w.source p.fromMs p.toMs p.status with e | sd
  · rfl
  · try dsimp only
    unfold execFiltered
    by_cases h0 : sd.rowCount = 0
    · rw [if_pos h0, if_pos h0]
    · rw [if_neg h0, if_neg h0]
      unfold execDedup
      try dsimp only
      by_cases h1 : (findDuplicates sd.rows (w.dest.rows.drop 1)).uniqueRows.length = 0
      · rw [if_pos h1, if_pos h1]
      · rw [if_neg h1, if_neg h1]
        try dsimp only
        rcases transferChunks w.appendFails sd.headers
            (chunksOf CHUNK_SIZE
              ((findDuplicates sd.rows (w.dest.rows.drop 1)).uniqueRows.map
                (fun i => sd.rows.getD i []))) 0 with k2 | res
        · rfl
        · exact execMove_result_ignores_deleteFails ..

/-- C5: in a move-mode run in which the source-row deletion was reached (so
all chunk appends succeeded) but the `deleteRows` call throws, the transfer
is still reported successful, the returned result is exactly the result of
the same run with a working delete, and the failed deletion leaves the
source sheet untouched. -/
theorem delete_failure_still_success (w : World) (p : Params)
    (_hm : p.mode = Mode.move) (hd : w.deleteFails = true)
    (ha : (gasExecuteDataTransfer w p).deleteCalls ≠ []) :
    (gasExecuteDataTransfer w p).result.success = true ∧
    (gasExecuteDataTransfer w p).result =
      (gasExecuteDataTransfer {w with deleteFails := false} p).result ∧
    (gasExecuteDataTransfer w p).finalSource = w.source := by
  have hmain : (gasExecuteDataTransfer w p).result.success = true ∧
      (gasExecuteDataTransfer w p).finalSource = w.source := by
    unfold gasExecuteDataTransfer at ha ⊢
    revert ha
    rcases hf : gasGetFilteredData w.source p.fromMs p.toMs p.status with e | sd <;>
      dsimp only <;> intro ha
    · exact absurd rfl ha
    · unfold execFiltered at ha ⊢
      by_cases h0 : sd.rowCount = 0
      · rw [if_pos h0] at ha
        exact absurd rfl ha
      · rw [if_neg h0] at ha ⊢
        unfold execDedup at ha ⊢
        by_cases h1 : (findDuplicates sd.rows (w.dest.rows.drop 1)).uniqueRows.length = 0
        · rw [if_pos h1] at ha
          exact absurd rfl ha
        · rw [if_neg h1] at ha ⊢
          dsimp only at ha ⊢
          revert ha
          rcases ht : transferChunks w.appendFails sd.headers
              (chunksOf CHUNK_SIZE
                ((findDuplicates sd.rows (w.dest.rows.drop 1)).uniqueRows.map
                  (fun i => sd.rows.getD i []))) 0 with k2 | res <;>
            dsimp only <;> intro ha
          · exact absurd rfl ha
          · unfold execMove at ha ⊢
            split at ha
            · rw [if_pos (by assumption)]
              dsimp only
              rw [hd]
              exact ⟨rfl, rfl⟩
            · exact absurd rfl ha
  exact ⟨hmain.1, run_result_ignores_deleteFails w p, hmain.2⟩

/-- C5 scenario world: one transferable source row, appends succeed, the
`deleteRows` call throws. -/
def c5World : World := ⟨c1Sheet, ⟨[[strCell "DATE"]], 1⟩, fun _ => false, true⟩

/-- C5 witness: on the failing-delete move-mode world the transfer still
reports success, matches the working-delete run's result, and leaves the
source untouched. -/
theorem delete_failure_still_success_witness :
    (gasExecuteDataTransfer c5World c1Params).result.success = true ∧
    (gasExecuteDataTransfer c5World c1Params).result =
      (gasExecuteDataTransfer {c5World with deleteFails := false} c1Params).result ∧
    (gasExecuteDataTransfer c5World c1Params).finalSource = c5World.source :=
  delete_failure_still_success c5World c1Params (by decide) (by decide) (by decide)

/-! ### Deletion ordering and pre-deletion row targeting (C6) -/

/-- One step of the position filter. -/
theorem keepPosAux_cons (P : Nat → Bool) (i : Nat) (a : α) (as : List α) :
    keepPosAux P i (a :: as) =
      if P i then a :: keepPosAux P (i + 1) as else keepPosAux P (i + 1) as := rfl

/-- A position filter that is true from `i` on keeps the whole list. -/
theorem keepPosAux_all_true (P : Nat → Bool) :
    ∀ (s : List α) (i : Nat), (∀ p, i ≤ p → P p = true) → keepPosAux P i s = s := by
  intro s
  induction s with
  | nil => intro i _; rfl
  | cons a as ih =>
      intro i hP
      rw [keepPosAux_cons, if_pos (hP i (le_refl i)), ih (i + 1) (fun p hp => hP p (by omega))]

/-- Pointwise-equal position filters keep the same elements. -/
theorem keepPosAux_congr {P Q : Nat → Bool} (h : ∀ p, P p = Q p)
    (s : List α) (i : Nat) : keepPosAux P i s = keepPosAux Q i s := by
  rw [funext h]

/-- Shifting the starting counter of the position filter. -/
theorem keepPosAux_shift (P : Nat → Bool) :
    ∀ (s : List α) (i : Nat),
    keepPosAux P (i + 1) s = keepPosAux (fun p => P (p + 1)) i s := by
  intro s
  induction s with
  | nil => intro i; rfl
  | cons a as ih =>
      intro i
      rw [keepPosAux_cons, keepPosAux_cons]
      by_cases h : P (i + 1) = true
      · rw [if_pos h, if_pos h, ih (i + 1)]
      · rw [if_neg h, if_neg h, ih (i + 1)]

/-- `eraseIdx j` removes exactly 1-based position `j + 1`. -/
theorem eraseIdx_eq_keepPosAux :
    ∀ (s : List α) (j : Nat), s.eraseIdx j = keepPosAux (fun p => p != (j + 1)) 1 s := by
  intro s
  induction s with
  | nil => intro j; rfl
  | cons a as ih =>
      intro j
      match j with
      | 0 =>
          show as = keepPosAux (fun p => p != 1) 1 (a :: as)
          rw [keepPosAux_cons, if_neg (by simp)]
          exact (keepPosAux_all_true _ as 2 (fun p hp => by simp; omega)).symm
      | jj + 1 =>
          show a :: as.eraseIdx jj = keepPosAux (fun p => p != (jj + 2)) 1 (a :: as)
          rw [keepPosAux_cons, if_pos (by simp)]
          congr 1
          rw [keepPosAux_shift]
          rw [keepPosAux_congr (Q := fun p => p != (jj + 1)) ?_ as 1, ih jj]
          intro p
          by_cases h : p = jj + 1
          · simp [h]
          · have h2 : p + 1 ≠ jj + 2 := by omega
            simp [h, h2]

/-- Filtering positions after removing position `r` (with the outer filter
true from `r` on) equals a single combined position filter on the original
list. -/
theorem keepPosAux_comm (r : Nat) (P : Nat → Bool)
    (hP : ∀ p, r ≤ p → P p = true) :
    ∀ (s : List α) (i : Nat), i ≤ r →
    keepPosAux P i (keepPosAux (fun p => p != r) i s) =
      keepPosAux (fun p => (p != r) && P p) i s := by
  intro s
  induction s with
  | nil => intro i _; rfl
  | cons a as ih =>
      intro i hir
      by_cases heq : i = r
      · subst heq
        rw [keepPosAux_cons (fun p => p != i) i a as, if_neg (by simp)]
        rw [keepPosAux_all_true (fun p => p != i) as (i + 1) (fun p hp => by simp; omega)]
        rw [keepPosAux_cons (fun p => (p != i) && P p) i a as, if_neg (by simp)]
        rw [keepPosAux_all_true P as i (fun p hp => hP p hp)]
        rw [keepPosAux_all_true _ as (i + 1) (fun p hp => by
          simp only [Bool.and_eq_true]
          exact ⟨by simp; omega, hP p (by omega)⟩)]
      · have hlt : i < r := lt_of_le_of_ne hir heq
        have hir2 : ((i : Nat) != r) = true := by simp; omega
        rw [keepPosAux_cons (fun p => p != r) i a as, if_pos hir2]
        rw [keepPosAux_cons P i a _]
        rw [keepPosAux_cons (fun p => (p != r) && P p) i a as]
        have hcomb : ((i != r) && P i) = P i := by rw [hir2, Bool.true_and]
        rw [hcomb]
        by_cases hPi : P i = true
        · rw [if_pos hPi, if_pos hPi]
          congr 1
          exact ih (i + 1) (by omega)
        · rw [if_neg hPi, if_neg hPi]
          exact ih (i + 1) (by omega)

/-- Characterization of the deletion loop on a strictly descending call list:
the issued calls are exactly the in-range row numbers (judged against the
*pre-deletion* length), and the surviving sheet keeps exactly the pre-deletion
positions that were not issued. -/
theorem delLoop_char :
    ∀ (rows : List Nat) (s : List α),
    List.Pairwise (fun a b => a > b) rows →
    delLoop rows s =
      (keepPos (fun p => !((rows.filter (fun r => decide (1 < r ∧ r ≤ s.length))).contains p)) s,
       rows.filter (fun r => decide (1 < r ∧ r ≤ s.length))) := by
  intro rows
  induction rows with
  | nil =>
      intro s _
      unfold delLoop keepPos
      simp only [List.filter_nil]
      rw [keepPosAux_all_true _ s 1 (fun p _ => by simp [List.contains])]
  | cons r rest ih =>
      intro s hpw
      have hr : ∀ x ∈ rest, x < r := fun x hx => (List.pairwise_cons.mp hpw).1 x hx
      have hrest : List.Pairwise (fun a b => a > b) rest := (List.pairwise_cons.mp hpw).2
      unfold delLoop
      by_cases hg : 1 < r ∧ r ≤ s.length
      · rw [if_pos hg]
        dsimp only
        have hlen : (s.eraseIdx (r - 1)).length = s.length - 1 :=
          List.length_eraseIdx_of_lt (by omega)
        have hfc : rest.filter (fun x => decide (1 < x ∧ x ≤ (s.eraseIdx (r - 1)).length)) =
            rest.filter (fun x => decide (1 < x ∧ x ≤ s.length)) := by
          apply List.filter_congr
          intro x hx
          have hxr := hr x hx
          rw [hlen]
          exact decide_eq_decide.mpr (by omega)
        have hcons : (r :: rest).filter (fun x => decide (1 < x ∧ x ≤ s.length)) =
            r :: rest.filter (fun x => decide (1 < x ∧ x ≤ s.length)) := by
          rw [List.filter_cons]
          simp [hg]
        rw [ih (s.eraseIdx (r - 1)) hrest, hfc, hcons]
        refine Prod.ext ?_ rfl
        dsimp only
        set V := rest.filter (fun x => decide (1 < x ∧ x ≤ s.length)) with hV
        have hVlt : ∀ x ∈ V, x < r := by
          intro x hx
          exact hr x (List.mem_of_mem_filter hx)
        have hnotin : ∀ p, r ≤ p → (!(V.contains p)) = true := by
          intro p hp
          cases hc : V.contains p
          · rfl
          · exact absurd (hVlt p (List.mem_of_elem_eq_true hc)) (by omega)
        have her : s.eraseIdx (r - 1) = keepPosAux (fun p => p != r) 1 s := by
          rw [eraseIdx_eq_keepPosAux]
          exact keepPosAux_congr (fun p => by
            have : r - 1 + 1 = r := by omega
            rw [this]) s 1
        unfold keepPos
        rw [her, keepPosAux_comm r _ hnotin s 1 (by omega)]
        apply keepPosAux_congr
        intro p
        have hcc : (r :: V).contains p = ((p == r) || V.contains p) := by
          simp only [List.contains_cons]
        rw [hcc]
        cases hpr : (p == r)
        · have hne2 : ¬ (p = r) := by simpa using hpr
          simp [bne, hpr, hne2]
        · have heq2 : p = r := by simpa using hpr
          simp [bne, hpr, heq2]
      · rw [if_neg hg]
        have hcons : (r :: rest).filter (fun x => decide (1 < x ∧ x ≤ s.length)) =
            rest.filter (fun x => decide (1 < x ∧ x ≤ s.length)) := by
          rw [List.filter_cons]
          simp [hg]
        rw [ih s hrest, hcons]

/-- A position filter true at 1 keeps the head. -/
theorem keepPos_take_one (P : Nat → Bool) (s : List α) (h : P 1 = true) :
    (keepPos P s).take 1 = s.take 1 := by
  cases s with
  | nil => rfl
  | cons a as =>
      unfold keepPos keepPosAux
      rw [h]
      simp

/-- C6 (amended): for every `deleteRows` call whose row-number list has no
duplicates, the issued deletions are strictly descending, each issued number
is an in-range data row (`1 < r ≤ lastRow`), the surviving sheet is exactly
the pre-deletion rows at positions not issued — so row numbers are honored
against the pre-deletion layout — and row 1 (the header) always survives. -/
theorem deleteRows_nodup_descending_pre_deletion (s : List α) (rowNums : List Nat)
    (hne : rowNums ≠ []) (hnd : rowNums.Nodup) :
    ∃ s' calls, deleteRowsModel s rowNums = Except.ok (s', calls) ∧
      List.Pairwise (fun a b => a > b) calls ∧
      (∀ r ∈ calls, 1 < r ∧ r ≤ s.length) ∧
      s' = keepPos (fun p => !(calls.contains p)) s ∧
      s'.take 1 = s.take 1 := by
  have hlen : ¬ (rowNums.length = 0) := by
    intro h0
    exact hne (List.length_eq_zero.mp h0)
  have hsorted : List.Pairwise (fun a b => b ≤ a) (sortDesc rowNums) := by
    unfold sortDesc
    rw [List.pairwise_reverse]
    exact List.sorted_insertionSort _ rowNums
  have hnd2 : (sortDesc rowNums).Nodup := by
    unfold sortDesc
    rw [List.nodup_reverse]
    exact ((rowNums.perm_insertionSort (· ≤ ·)).symm).nodup hnd
  have hstrict : List.Pairwise (fun a b => a > b) (sortDesc rowNums) :=
    (List.Pairwise.and hsorted hnd2).imp (fun h => by omega)
  have hchar := delLoop_char (sortDesc rowNums) s hstrict
  have hfst : (delLoop (sortDesc rowNums) s).1 =
      keepPos (fun p =>
        !(((sortDesc rowNums).filter (fun r => decide (1 < r ∧ r ≤ s.length))).contains p)) s := by
    rw [hchar]
  have hsnd : (delLoop (sortDesc rowNums) s).2 =
      (sortDesc rowNums).filter (fun r => decide (1 < r ∧ r ≤ s.length)) := by
    rw [hchar]
  refine ⟨(delLoop (sortDesc rowNums) s).1, (delLoop (sortDesc rowNums) s).2, ?_, ?_, ?_, ?_, ?_⟩
  · unfold deleteRowsModel
    rw [if_neg hlen]
  · rw [hsnd]
    exact List.Pairwise.filter _ hstrict
  · intro r hrc
    rw [hsnd] at hrc
    exact of_decide_eq_true (List.mem_filter.mp hrc).2
  · rw [hfst, hsnd]
  · rw [hfst]
    apply keepPos_take_one
    cases hc : ((sortDesc rowNums).filter (fun r => decide (1 < r ∧ r ≤ s.length))).contains 1
    · rfl
    · have h1m := List.mem_of_elem_eq_true hc
      have h1 := of_decide_eq_true (List.mem_filter.mp h1m).2
      omega

/-- C6 amended witness: on a 13-row sheet with row numbers `[5, 12, 7]`, the
amended properties hold (the issued calls are `[12, 7, 5]`). -/
theorem deleteRows_nodup_descending_pre_deletion_witness :
    ∃ s' calls, deleteRowsModel (List.range 13) [5, 12, 7] = Except.ok (s', calls) ∧
      List.Pairwise (fun a b => a > b) calls ∧
      (∀ r ∈ calls, 1 < r ∧ r ≤ (List.range 13).length) ∧
      s' = keepPos (fun p => !(calls.contains p)) (List.range 13) ∧
      s'.take 1 = (List.range 13).take 1 :=
  deleteRows_nodup_descending_pre_deletion (List.range 13) [5, 12, 7]
    (by decide) (by decide)

end DataflowPro
